import Mathlib

/-!
Verification of the model-construction pipeline of `sike/impurity.py`
(class `Impurity`): state catalog loading and filtering, transition
catalog filtering, integrity checks, density initialisation, position
indexing and P/Q reordering.

Machine floats of the source are modelled as rationals (`ℚ`); numpy
arrays as lists.  Each Python method is embedded as a Lean function over
the fields it reads, with the field values at their natural types.
-/

/-- One atomic state, as constructed by `atomic_state.State` and mutated by
`Impurity`.  Fields are exactly those read or written by `impurity.py`:
a stable identifier `id`, ionization stage `Z`, absolute `energy`,
statistical weight `stat_weight`, and the derived fields `ground`,
`iz_energy`, `energy_from_gs` and the volatile position `pos`. -/
structure State where
  id : Nat
  Z : Nat
  energy : ℚ
  stat_weight : ℚ
  ground : Bool := false
  iz_energy : ℚ := 0
  energy_from_gs : ℚ := 0
  pos : Nat := 0
deriving DecidableEq, Repr

/-- Modelled from the spec: `atomic_state.State.equals` (file
`atomic_state.py` is not part of the provided sources).  Semantic equality
of two atomic states, modelled as equality of identity and physical
attributes (`id`, `Z`, `energy`, `stat_weight`); the derived and
positional fields are not part of a state's identity (spec §3). -/
def State.equals (s t : State) : Bool :=
  s.id == t.id && s.Z == t.Z && s.energy == t.energy && s.stat_weight == t.stat_weight

/-- Process type tag of a transition catalog entry (the `type` field of
the json records, dispatched on in `init_transitions`). -/
inductive TransType where
  | ionization
  | autoionization
  | radiative_recombination
  | emission
  | excitation
deriving DecidableEq, Repr

/-- One transition record: the typed objects `IzTrans`/`AiTrans`/`RRTrans`/
`EmTrans`/`ExTrans` all carry the process `type`, the endpoint identifiers
`from_id`/`to_id`, and the position caches `from_pos`/`to_pos` written by
`set_transition_positions`.  The position caches are `Option Nat`: `none`
models "not yet assigned / lookup key absent" (a missing key raises in
Python). -/
structure Transition where
  type : TransType
  from_id : Nat
  to_id : Nat
  from_pos : Option Nat := none
  to_pos : Option Nat := none
deriving DecidableEq, Repr

/-- The process-enable flags consumed by `init_transitions`
(`self.ionization`, `self.autoionization`, `self.radiative_recombination`,
`self.emission`, `self.excitation`). -/
structure ProcessFlags where
  ionization : Bool
  autoionization : Bool
  radiative_recombination : Bool
  emission : Bool
  excitation : Bool
deriving DecidableEq, Repr

/-- One raw level record of the on-disk catalog (`levels_dict` entry):
carries the physical attributes; the numeric identifier is omitted and
assigned by position at load time. -/
structure RawLevel where
  Z : Nat
  energy : ℚ
  stat_weight : ℚ
deriving DecidableEq, Repr

/-- The slice of the `Impurity` object touched by `reorder_PQ_states` and
the position indexer: the state list, the transition list and the P/Q
counts. -/
structure Impurity where
  states : List State
  transitions : List Transition
  num_P_states : Nat := 0
  num_Q_states : Nat := 0
deriving DecidableEq, Repr

/-! ### Generic list helpers (used by several embeddings below) -/

/-- Index of the first element satisfying `p`, if any. -/
def firstIdxWhere {α : Type} (p : α → Bool) : List α → Option Nat
  | [] => none
  | a :: r => if p a then some 0 else (firstIdxWhere p r).map (· + 1)

/-- Map a function receiving the element's index, starting the count at
`k` (models Python's `enumerate` loops writing back element-wise). -/
def enumMapFrom {α β : Type} (f : Nat → α → β) (k : Nat) : List α → List β
  | [] => []
  | a :: r => f k a :: enumMapFrom f (k + 1) r

/-- `enumMapFrom` starting at index 0. -/
def enumMap {α β : Type} (f : Nat → α → β) (l : List α) : List β :=
  enumMapFrom f 0 l

/-! ### State catalog loading and filtering (`init_states`, lines 159–196) -/

/-- `self.states[i] = State(id=i, **level_dict)`: materialize one `State`
per catalog entry with a freshly assigned sequential `id` equal to its
position in the raw catalog. -/
def materialize_states (levels : List RawLevel) : List State :=
  enumMap (fun i l => { id := i, Z := l.Z, energy := l.energy, stat_weight := l.stat_weight }) levels

/-- Lines 190–194: if `state_ids` is not `None`, overwrite with `None`
every slot whose state's `id` is not in `state_ids`, then rebuild the list
without the `None` placeholders. -/
def apply_state_ids_filter (state_ids : Option (List Nat)) (states : List State) : List State :=
  match state_ids with
  | none => states
  | some ids =>
      (states.map (fun s => if !(ids.contains s.id) then none else some s)).filterMap id

/-- The state loading and retention stage of `init_states` (lines
183–196): materialize one `State` per raw catalog entry, then keep only
the user-specified states.  (The derived-attribute pass
`init_ionization_energies`, invoked at line 198, is modelled separately
below.) -/
def init_states (state_ids : Option (List Nat)) (levels : List RawLevel) : List State :=
  apply_state_ids_filter state_ids (materialize_states levels)

/-! ### Transition catalog filtering (`init_transitions`, lines 275–296) -/

/-- The enable flag consulted for a catalog entry of the given type. -/
def ProcessFlags.flagFor (flags : ProcessFlags) : TransType → Bool
  | .ionization => flags.ionization
  | .autoionization => flags.autoionization
  | .radiative_recombination => flags.radiative_recombination
  | .emission => flags.emission
  | .excitation => flags.excitation

/-- The `if/elif` chain of lines 281–293: construct the typed transition
object when the entry's type matches an enabled process, else leave the
slot `None`. -/
def keep_by_type (flags : ProcessFlags) (tr : Transition) : Option Transition :=
  if tr.type == .ionization && flags.ionization then some tr
  else if tr.type == .autoionization && flags.autoionization then some tr
  else if tr.type == .radiative_recombination && flags.radiative_recombination then some tr
  else if tr.type == .emission && flags.emission then some tr
  else if tr.type == .excitation && flags.excitation then some tr
  else none

/-- The transition construction loop of `init_transitions` (lines
275–296), over the catalog entries after the grid header
(`trans_dict[1:]`): skip (`continue`) every entry with an endpoint outside
`state_ids` when that list is given, dispatch the rest on type and enable
flag, then compact away the unfilled slots. -/
def init_transitions (state_ids : Option (List Nat)) (flags : ProcessFlags)
    (entries : List Transition) : List Transition :=
  (entries.map (fun tr =>
    match state_ids with
    | some ids =>
        if !(ids.contains tr.from_id) || !(ids.contains tr.to_id) then none
        else keep_by_type flags tr
    | none => keep_by_type flags tr)).filterMap id

/-- Endpoint survival under the user identifier filter: with no list every
entry passes; with an explicit list both endpoints must be listed. -/
def endpoints_pass (state_ids : Option (List Nat)) (tr : Transition) : Bool :=
  match state_ids with
  | none => true
  | some ids => ids.contains tr.from_id && ids.contains tr.to_id

/-! ### Position indexer (`set_state_positions`, `set_transition_positions`,
lines 436–450) and P/Q reordering (`reorder_PQ_states`, lines 452–466) -/

/-- The loop of `set_state_positions` with the enumeration counter started
at `k`: store `pos = index_in_current_list` on every state. -/
def set_state_positions_from (k : Nat) : List State → List State
  | [] => []
  | s :: r => { s with pos := k } :: set_state_positions_from (k + 1) r

/-- `set_state_positions` (lines 436–439): assign `pos = i` to the state
at index `i`. -/
def set_state_positions (states : List State) : List State :=
  set_state_positions_from 0 states

/-- The `id2pos` dictionary of `set_transition_positions` (lines
444–446), built by ascending iteration so that a later entry with the
same id overwrites an earlier one; `k` is the index of the first listed
state.  Lookup of an absent key yields `none` (a `KeyError` in
Python). -/
def id2pos_from (k : Nat) : List State → Nat → Option Nat
  | [], _ => none
  | s :: r, i =>
      match id2pos_from (k + 1) r i with
      | some j => some j
      | none => if i = s.id then some k else none

/-- The `id2pos` dictionary over a whole state list. -/
def id2pos (states : List State) (i : Nat) : Option Nat :=
  id2pos_from 0 states i

/-- `set_transition_positions` (lines 441–450): store on every transition
the positions of its endpoint states, looked up by id. -/
def set_transition_positions (states : List State) (transitions : List Transition) :
    List Transition :=
  transitions.map (fun t =>
    { t with from_pos := id2pos states t.from_id, to_pos := id2pos states t.to_id })

/-- The repartition step of `reorder_PQ_states` (lines 458–463): when the
partition policy is `"ground"`, place the ground states first and the
others after, in their prior relative orders, and record the two
counts. -/
def reorder_partition (imp : Impurity) (P_states : String) : Impurity :=
  if P_states = "ground" then
    { imp with
      states := imp.states.filter (fun s => s.ground == true)
        ++ imp.states.filter (fun s => s.ground == false),
      num_P_states := (imp.states.filter (fun s => s.ground == true)).length,
      num_Q_states := (imp.states.filter (fun s => s.ground == false)).length }
  else imp

/-- `reorder_PQ_states` (lines 452–466): repartition, then rerun the
position indexer (`set_state_positions` followed by
`set_transition_positions`). -/
def reorder_PQ_states (imp : Impurity) (P_states : String) : Impurity :=
  let imp1 := reorder_partition imp P_states
  let states2 := set_state_positions imp1.states
  { imp1 with
    states := states2,
    transitions := set_transition_positions states2 imp1.transitions }

/-- A state with its volatile position field canonicalized: two states are
"the same member of the state set" exactly when they agree after erasing
`pos` (spec §3: `pos` is derived, not part of identity). -/
def State.erase_pos (s : State) : State := { s with pos := 0 }

/-- A transition with its position caches canonicalized. -/
def Transition.erase_pos (t : Transition) : Transition :=
  { t with from_pos := none, to_pos := none }

/-! ### Shared lemmas -/

/-- The source's "mark slots `None`, then compact" removal pattern is an
order-preserving `filter`: a `filterMap` by a guard that either keeps an
element unchanged or drops it equals the `filter` by the guard
condition. -/
theorem filterMap_guard_eq_filter {α : Type} (p : α → Bool) (g : α → Option α)
    (hg : ∀ a, g a = if p a then some a else none) (l : List α) :
    l.filterMap g = l.filter p := by
  induction l with
  | nil => rfl
  | cons a r ih =>
      rw [List.filterMap_cons, List.filter_cons, hg a]
      by_cases h : p a
      · simp only [h, if_pos, ih]
      · simp only [h, Bool.false_eq_true, if_neg, ih, if_false]

theorem set_state_positions_from_map_erase (k : Nat) (l : List State) :
    (set_state_positions_from k l).map State.erase_pos = l.map State.erase_pos := by
  induction l generalizing k with
  | nil => rfl
  | cons s r ih => simp [set_state_positions_from, State.erase_pos, ih]

theorem set_state_positions_from_length (k : Nat) (l : List State) :
    (set_state_positions_from k l).length = l.length := by
  induction l generalizing k with
  | nil => rfl
  | cons s r ih => simp [set_state_positions_from, ih]

theorem set_state_positions_from_append (k : Nat) (a b : List State) :
    set_state_positions_from k (a ++ b)
      = set_state_positions_from k a ++ set_state_positions_from (k + a.length) b := by
  induction a generalizing k with
  | nil => rfl
  | cons s r ih =>
      have h : k + 1 + r.length = k + (r.length + 1) := by omega
      show { s with pos := k } :: set_state_positions_from (k + 1) (r ++ b)
          = ({ s with pos := k } :: set_state_positions_from (k + 1) r)
            ++ set_state_positions_from (k + (r.length + 1)) b
      rw [ih (k + 1), h]
      rfl

theorem set_state_positions_from_map_pos (k : Nat) (l : List State) :
    (set_state_positions_from k l).map (fun s => s.pos) = List.range' k l.length := by
  induction l generalizing k with
  | nil => rfl
  | cons s r ih => simp [set_state_positions_from, List.range'_succ, ih]

theorem set_state_positions_from_map_id (k : Nat) (l : List State) :
    (set_state_positions_from k l).map (fun s => s.id) = l.map (fun s => s.id) := by
  induction l generalizing k with
  | nil => rfl
  | cons s r ih => simp [set_state_positions_from, ih]

theorem set_state_positions_from_idem (k : Nat) (l : List State) :
    set_state_positions_from k (set_state_positions_from k l)
      = set_state_positions_from k l := by
  induction l generalizing k with
  | nil => rfl
  | cons s r ih => simp [set_state_positions_from, ih]

theorem ground_of_mem_set_state_positions_from (k : Nat) (l : List State) (s : State) :
    s ∈ set_state_positions_from k l → ∃ s0 ∈ l, s.ground = s0.ground := by
  induction l generalizing k with
  | nil => intro h; cases h
  | cons a r ih =>
      intro h
      rcases List.mem_cons.mp h with h | h
      · subst h; exact ⟨a, List.mem_cons_self a r, rfl⟩
      · obtain ⟨s0, hs0, hg⟩ := ih (k + 1) h
        exact ⟨s0, List.mem_cons_of_mem a hs0, hg⟩

theorem set_state_positions_from_getElem? (k : Nat) (l : List State) (j : Nat) :
    (set_state_positions_from k l)[j]? = (l[j]?).map (fun s => { s with pos := k + j }) := by
  induction l generalizing k j with
  | nil => simp [set_state_positions_from]
  | cons a r ih =>
      cases j with
      | zero => simp [set_state_positions_from]
      | succ j =>
          simp only [set_state_positions_from, List.getElem?_cons_succ, ih]
          have h : k + 1 + j = k + (j + 1) := by omega
          rw [h]

theorem id2pos_from_eq_none (k : Nat) (l : List State) (i : Nat) :
    (∀ s ∈ l, s.id ≠ i) → id2pos_from k l i = none := by
  induction l generalizing k with
  | nil => intro _; rfl
  | cons a r ih =>
      intro h
      simp only [id2pos_from, ih (k + 1) (fun s hs => h s (List.mem_cons_of_mem a hs))]
      have hne : ¬ i = a.id := fun hc => h a (List.mem_cons_self a r) hc.symm
      simp [hne]

theorem id2pos_from_of_getElem? (k : Nat) (l : List State) (j : Nat) (s : State) :
    (l.map (fun t : State => t.id)).Nodup → l[j]? = some s →
    id2pos_from k l s.id = some (k + j) := by
  induction l generalizing k j with
  | nil => intro _ hj; simp at hj
  | cons a r ih =>
      intro hnodup hj
      rcases List.nodup_cons.mp hnodup with ⟨hni, hnd⟩
      cases j with
      | zero =>
          simp only [List.getElem?_cons_zero, Option.some.injEq] at hj
          subst hj
          have hnone : id2pos_from (k + 1) r a.id = none := by
            refine id2pos_from_eq_none _ _ _ (fun t ht hc => hni ?_)
            have hmem : t.id ∈ List.map (fun t : State => t.id) r :=
              List.mem_map_of_mem (fun t : State => t.id) ht
            rw [hc] at hmem
            exact hmem
          simp [id2pos_from, hnone]
      | succ j =>
          simp only [List.getElem?_cons_succ] at hj
          have hrec := ih (k + 1) j hnd hj
          simp only [id2pos_from, hrec]
          have h : k + 1 + j = k + (j + 1) := by omega
          rw [h]

theorem set_transition_positions_map_erase (S : List State) (T : List Transition) :
    (set_transition_positions S T).map Transition.erase_pos
      = T.map Transition.erase_pos := by
  induction T with
  | nil => rfl
  | cons t r ih =>
      simp [set_transition_positions, Transition.erase_pos, ih]

theorem set_transition_positions_idem (S : List State) (T : List Transition) :
    set_transition_positions S (set_transition_positions S T)
      = set_transition_positions S T := by
  induction T with
  | nil => rfl
  | cons t r ih =>
      simp [set_transition_positions, ih]

theorem filter_eq_self_of_forall (p : State → Bool) (l : List State)
    (h : ∀ s ∈ l, p s = true) : l.filter p = l := by
  induction l with
  | nil => rfl
  | cons a r ih =>
      rw [List.filter_cons, if_pos (h a (List.mem_cons_self a r))]
      exact congrArg (List.cons a) (ih (fun s hs => h s (List.mem_cons_of_mem a hs)))

theorem filter_eq_nil_of_forall (p : State → Bool) (l : List State)
    (h : ∀ s ∈ l, p s = false) : l.filter p = [] := by
  induction l with
  | nil => rfl
  | cons a r ih =>
      rw [List.filter_cons]
      have := h a (List.mem_cons_self a r)
      simp only [this, Bool.false_eq_true, if_false]
      exact ih (fun s hs => h s (List.mem_cons_of_mem a hs))

/-- `reorder_PQ_states` with the `"ground"` policy, unfolded. -/
theorem reorder_PQ_states_ground (imp : Impurity) :
    reorder_PQ_states imp "ground" =
      { states := set_state_positions (imp.states.filter (fun s => s.ground == true)
          ++ imp.states.filter (fun s => s.ground == false)),
        transitions := set_transition_positions
          (set_state_positions (imp.states.filter (fun s => s.ground == true)
            ++ imp.states.filter (fun s => s.ground == false))) imp.transitions,
        num_P_states := (imp.states.filter (fun s => s.ground == true)).length,
        num_Q_states := (imp.states.filter (fun s => s.ground == false)).length } := by
  simp [reorder_PQ_states, reorder_partition]

/-! ### Claim theorems (first group) -/

/-- **C1.** For every explicit state-identifier list passed as
`state_ids`, `init_states` retains exactly those catalog states whose `id`
is in that list, compacting the state list while preserving the relative
order of the survivors (the result is literally the order-preserving
`filter` of the materialized catalog); and when `state_ids` is `None`
(absent), all catalog states are retained. -/
theorem c1_init_states_retention (ids : List Nat) (levels : List RawLevel) :
    init_states (some ids) levels
      = (materialize_states levels).filter (fun s => ids.contains s.id) ∧
    init_states none levels = materialize_states levels := by
  refine ⟨?_, rfl⟩
  unfold init_states apply_state_ids_filter
  dsimp only
  rw [List.filterMap_map]
  refine filterMap_guard_eq_filter _ _ (fun s => ?_) _
  by_cases h : s.id ∈ ids <;> simp [h]

/-- **C3.** For every catalog transition entry, `init_transitions`
constructs a `Transition` object if and only if both endpoint identifiers
survive the user state-identifier filter and the enable flag for that
entry's process type is true: the constructed list is exactly the
order-preserving `filter` of the entries by that conjunction, so every
other entry is dropped. -/
theorem c3_init_transitions_filter (state_ids : Option (List Nat)) (flags : ProcessFlags)
    (entries : List Transition) :
    init_transitions state_ids flags entries
      = entries.filter (fun tr => endpoints_pass state_ids tr && flags.flagFor tr.type) := by
  unfold init_transitions
  rw [List.filterMap_map]
  refine filterMap_guard_eq_filter _ _ (fun tr => ?_) _
  have hkeep : keep_by_type flags tr
      = if flags.flagFor tr.type then some tr else none := by
    unfold keep_by_type ProcessFlags.flagFor
    cases tr.type <;> simp
  cases state_ids with
  | none =>
      simp only [Function.comp_apply, id, hkeep, endpoints_pass, Bool.true_and]
  | some ids =>
      by_cases hfrom : tr.from_id ∈ ids
      · by_cases hto : tr.to_id ∈ ids
        · simp [Function.comp_apply, hkeep, endpoints_pass, hfrom, hto]
        · simp [Function.comp_apply, hkeep, endpoints_pass, hfrom, hto]
      · simp [Function.comp_apply, hkeep, endpoints_pass, hfrom]

theorem take_append_of_length {α : Type} (a b : List α) (n : Nat) (h : a.length = n) :
    (a ++ b).take n = a := by
  subst h
  exact List.take_left a b

theorem drop_append_of_length {α : Type} (a b : List α) (n : Nat) (h : a.length = n) :
    (a ++ b).drop n = b := by
  subst h
  exact List.drop_left a b

/-- **C5.** After the Position Indexer runs (`set_state_positions` followed
by `set_transition_positions`), the `pos` values of the states form the
contiguous sequence `0, 1, ..., evolved_state_count - 1` in list order;
and — provided the state identifiers are distinct, so that "the state
whose id matches" is well defined — every transition's `from_pos` and
`to_pos` equal the `pos` of the state whose `id` matches its `from_id`
and `to_id` respectively. -/
theorem c5_position_indexer (states : List State) (transitions : List Transition)
    (hnodup : (states.map (fun t : State => t.id)).Nodup) :
    ((set_state_positions states).map (fun s => s.pos) = List.range states.length) ∧
    (∀ (i : Nat) (t : Transition),
      (set_transition_positions (set_state_positions states) transitions)[i]? = some t →
      (∀ s ∈ set_state_positions states, s.id = t.from_id → t.from_pos = some s.pos) ∧
      (∀ s ∈ set_state_positions states, s.id = t.to_id → t.to_pos = some s.pos)) := by
  have hids : ((set_state_positions states).map (fun t : State => t.id)).Nodup := by
    rw [set_state_positions, set_state_positions_from_map_id]
    exact hnodup
  have hlookup : ∀ s ∈ set_state_positions states,
      id2pos (set_state_positions states) s.id = some s.pos := by
    intro s hs
    obtain ⟨j, hj⟩ := List.mem_iff_getElem?.mp hs
    have hpos : s.pos = j := by
      have hj' := hj
      rw [set_state_positions, set_state_positions_from_getElem?] at hj'
      cases hsj : states[j]? with
      | none => rw [hsj] at hj'; cases hj'
      | some s0 =>
          rw [hsj] at hj'
          simp at hj'
          rw [← hj']
    have hl := id2pos_from_of_getElem? 0 (set_state_positions states) j s hids hj
    rw [id2pos, hl, hpos]
    congr 1
    omega
  refine ⟨?_, ?_⟩
  · rw [set_state_positions, set_state_positions_from_map_pos, List.range_eq_range']
  · intro i t ht
    rw [set_transition_positions, List.getElem?_map] at ht
    cases ht0 : transitions[i]? with
    | none => rw [ht0] at ht; cases ht
    | some t0 =>
        rw [ht0] at ht
        simp at ht
        subst ht
        constructor
        · intro s hs hid
          show id2pos (set_state_positions states) t0.from_id = some s.pos
          rw [← hid]
          exact hlookup s hs
        · intro s hs hid
          show id2pos (set_state_positions states) t0.to_id = some s.pos
          rw [← hid]
          exact hlookup s hs

/-- Witness for C5 at a concrete model: two states with ids 5 and 2 and a
single excitation transition from id 2 to id 5. -/
theorem c5_position_indexer_witness :
    (([{ id := 5, Z := 0, energy := 0, stat_weight := 1 },
       { id := 2, Z := 0, energy := 1, stat_weight := 1 }] : List State).map
         (fun t : State => t.id)).Nodup ∧
    ((set_state_positions [{ id := 5, Z := 0, energy := 0, stat_weight := 1 },
        { id := 2, Z := 0, energy := 1, stat_weight := 1 }]).map (fun s => s.pos)
      = List.range 2 ∧
    (∀ (i : Nat) (t : Transition),
      (set_transition_positions
        (set_state_positions [{ id := 5, Z := 0, energy := 0, stat_weight := 1 },
          { id := 2, Z := 0, energy := 1, stat_weight := 1 }])
        [{ type := TransType.excitation, from_id := 2, to_id := 5 }])[i]? = some t →
      (∀ s ∈ set_state_positions [{ id := 5, Z := 0, energy := 0, stat_weight := 1 },
          { id := 2, Z := 0, energy := 1, stat_weight := 1 }],
        s.id = t.from_id → t.from_pos = some s.pos) ∧
      (∀ s ∈ set_state_positions [{ id := 5, Z := 0, energy := 0, stat_weight := 1 },
          { id := 2, Z := 0, energy := 1, stat_weight := 1 }],
        s.id = t.to_id → t.to_pos = some s.pos))) :=
  ⟨by decide,
   c5_position_indexer
     [{ id := 5, Z := 0, energy := 0, stat_weight := 1 },
      { id := 2, Z := 0, energy := 1, stat_weight := 1 }]
     [{ type := TransType.excitation, from_id := 2, to_id := 5 }]
     (by decide)⟩

/-- **C8.** `reorder_PQ_states` with `P_states = "ground"` stably
repartitions the state list: the first `num_P_states` entries are exactly
the states with `ground = true` in their prior relative order, the rest
are the non-ground states in their prior relative order,
`num_P_states + num_Q_states` equals the pre-reorder evolved-state count,
and the state and transition memberships (compared with the volatile
position fields erased) are unchanged. -/
theorem c8_reorder_ground (imp : Impurity) :
    (((reorder_PQ_states imp "ground").states.take
        (reorder_PQ_states imp "ground").num_P_states).map State.erase_pos
      = (imp.states.filter (fun s => s.ground == true)).map State.erase_pos) ∧
    (((reorder_PQ_states imp "ground").states.drop
        (reorder_PQ_states imp "ground").num_P_states).map State.erase_pos
      = (imp.states.filter (fun s => s.ground == false)).map State.erase_pos) ∧
    ((reorder_PQ_states imp "ground").num_P_states
        + (reorder_PQ_states imp "ground").num_Q_states = imp.states.length) ∧
    (((reorder_PQ_states imp "ground").states.map State.erase_pos).Perm
        (imp.states.map State.erase_pos)) ∧
    ((reorder_PQ_states imp "ground").transitions.map Transition.erase_pos
      = imp.transitions.map Transition.erase_pos) := by
  rw [reorder_PQ_states_ground]
  set g := imp.states.filter (fun s => s.ground == true) with hg
  set o := imp.states.filter (fun s => s.ground == false) with ho
  have happ : set_state_positions (g ++ o)
      = set_state_positions_from 0 g ++ set_state_positions_from (0 + g.length) o := by
    rw [set_state_positions, set_state_positions_from_append]
  have hlenA : (set_state_positions_from 0 g).length = g.length :=
    set_state_positions_from_length 0 g
  have hfo : o = imp.states.filter (fun s => !(s.ground == true)) := by
    rw [ho]
    refine List.filter_congr (fun s _ => ?_)
    cases hsg : s.ground <;> rfl
  refine ⟨?_, ?_, ?_, ?_, ?_⟩
  · show ((set_state_positions (g ++ o)).take g.length).map State.erase_pos
      = g.map State.erase_pos
    rw [happ, take_append_of_length _ _ _ hlenA, set_state_positions_from_map_erase 0 g]
  · show ((set_state_positions (g ++ o)).drop g.length).map State.erase_pos
      = o.map State.erase_pos
    rw [happ, drop_append_of_length _ _ _ hlenA,
      set_state_positions_from_map_erase (0 + g.length) o]
  · show g.length + o.length = imp.states.length
    rw [hg, hfo]
    exact (List.length_eq_length_filter_add (fun s : State => s.ground == true)).symm
  · show ((set_state_positions (g ++ o)).map State.erase_pos).Perm
      (imp.states.map State.erase_pos)
    rw [set_state_positions, set_state_positions_from_map_erase]
    have hperm : (g ++ o).Perm imp.states := by
      rw [hg, hfo]
      exact List.filter_append_perm (fun s : State => s.ground == true) imp.states
    exact hperm.map State.erase_pos
  · exact set_transition_positions_map_erase _ _

/-- **C10.** `reorder_PQ_states` with `P_states = "ground"` is idempotent:
a second application leaves the whole model — state list order,
`num_P_states`, `num_Q_states`, every state's `pos` and every
transition's `from_pos`/`to_pos` — identical to its value after the
first application. -/
theorem c10_reorder_idempotent (imp : Impurity) :
    reorder_PQ_states (reorder_PQ_states imp "ground") "ground"
      = reorder_PQ_states imp "ground" := by
  rw [reorder_PQ_states_ground imp, reorder_PQ_states_ground]
  set g := imp.states.filter (fun s => s.ground == true) with hgdef
  set o := imp.states.filter (fun s => s.ground == false) with hodef
  have hground : ∀ s ∈ set_state_positions_from 0 g, s.ground = true := by
    intro s hs
    obtain ⟨s0, hs0, heq⟩ := ground_of_mem_set_state_positions_from 0 g s hs
    rw [heq]
    have h2 : (s0.ground == true) = true := by
      have h3 := List.of_mem_filter hs0
      simpa using h3
    simpa using h2
  have hother : ∀ s ∈ set_state_positions_from (0 + g.length) o, s.ground = false := by
    intro s hs
    obtain ⟨s0, hs0, heq⟩ := ground_of_mem_set_state_positions_from _ o s hs
    rw [heq]
    have h2 : (s0.ground == false) = true := by
      have h3 := List.of_mem_filter hs0
      simpa using h3
    simpa using h2
  have happ : set_state_positions (g ++ o)
      = set_state_positions_from 0 g ++ set_state_positions_from (0 + g.length) o := by
    rw [set_state_positions, set_state_positions_from_append]
  have hfilterT : (set_state_positions (g ++ o)).filter (fun s => s.ground == true)
      = set_state_positions_from 0 g := by
    rw [happ, List.filter_append]
    rw [filter_eq_self_of_forall _ _ (fun s hs => by simp [hground s hs])]
    rw [filter_eq_nil_of_forall _ _ (fun s hs => by simp [hother s hs])]
    exact List.append_nil _
  have hfilterF : (set_state_positions (g ++ o)).filter (fun s => s.ground == false)
      = set_state_positions_from (0 + g.length) o := by
    rw [happ, List.filter_append]
    rw [filter_eq_nil_of_forall _ _ (fun s hs => by simp [hground s hs])]
    rw [filter_eq_self_of_forall _ _ (fun s hs => by simp [hother s hs])]
    exact List.nil_append _
  have hstates : set_state_positions
      ((set_state_positions (g ++ o)).filter (fun s => s.ground == true)
        ++ (set_state_positions (g ++ o)).filter (fun s => s.ground == false))
      = set_state_positions (g ++ o) := by
    rw [hfilterT, hfilterF]
    rw [set_state_positions, set_state_positions_from_append]
    rw [set_state_positions_from_length]
    rw [set_state_positions_from_idem, set_state_positions_from_idem]
    rw [happ]
  simp only [Impurity.mk.injEq]
  refine ⟨hstates, ?_, ?_, ?_⟩
  · rw [hstates]
    exact set_transition_positions_idem _ _
  · rw [hfilterT, set_state_positions_from_length]
  · rw [hfilterF, set_state_positions_from_length]

/-! ### Integrity checker (`state_and_transition_checks`, lines 324–369) -/

deriving instance DecidableEq for Except

/-- Modelled from the spec: `core.get_associated_transitions` (module
`core` is not part of the provided sources) — "given a state identifier
and the from/to identifier arrays of all transitions, returns the subset
of transition indices touching that state; used only for orphan
detection" (spec §6).  `k` is the index of the first listed transition. -/
def get_associated_transitions_from (k : Nat) (i : Nat) : List Nat → List Nat → List Nat
  | f :: fs, t :: ts =>
      if f == i || t == i then k :: get_associated_transitions_from (k + 1) i fs ts
      else get_associated_transitions_from (k + 1) i fs ts
  | _, _ => []

/-- `core.get_associated_transitions` over whole identifier arrays. -/
def get_associated_transitions (i : Nat) (from_ids to_ids : List Nat) : List Nat :=
  get_associated_transitions_from 0 i from_ids to_ids

/-- Lines 341–353: overwrite with `None` every state with no associated
transitions (an "orphaned state"), then compact. -/
def remove_orphan_states (transitions : List Transition) (states : List State) : List State :=
  (states.map (fun s =>
    if (get_associated_transitions s.id (transitions.map (fun t => t.from_id))
        (transitions.map (fun t => t.to_id))).isEmpty then none else some s)).filterMap id

/-- Lines 355–362: if autoionization is disabled, overwrite with `None`
every state whose ionization energy is negative, then compact. -/
def remove_negative_iz_states (autoionization : Bool) (states : List State) : List State :=
  if autoionization = false then
    (states.map (fun s => if s.iz_energy < 0 then none else some s)).filterMap id
  else states

/-- Lines 364–369: overwrite with `None` every transition with an endpoint
not among the surviving state identifiers, then compact. -/
def remove_orphan_transitions (states : List State) (transitions : List Transition) :
    List Transition :=
  (transitions.map (fun t =>
    if !((states.map (fun s => s.id)).contains t.from_id)
        || !((states.map (fun s => s.id)).contains t.to_id) then none else some t)).filterMap id

/-- Modelled from the spec: `np.abs` on one value — the absolute value,
written with an explicit comparison so that it evaluates. -/
def np_abs (x : ℚ) : ℚ := if x < 0 then -x else x

/-- Modelled from the spec: the binary maximum folded by `np.max`. -/
def np_max2 (a b : ℚ) : ℚ := if a < b then b else a

theorem np_abs_eq_abs (x : ℚ) : np_abs x = |x| := by
  unfold np_abs
  by_cases h : x < 0
  · rw [if_pos h, abs_of_neg h]
  · rw [if_neg h, abs_of_nonneg (not_lt.mp h)]

theorem np_max2_eq_max (a b : ℚ) : np_max2 a b = max a b := by
  unfold np_max2
  by_cases h : a < b
  · rw [if_pos h, max_eq_right (le_of_lt h)]
  · rw [if_neg h, max_eq_left (not_lt.mp h)]

/-- `np.max(np.abs(Egrid - trans_Egrid))` for same-length nonempty grids:
the maximum of the pointwise absolute differences. -/
def max_abs_diff (a b : List ℚ) : ℚ :=
  (List.zipWith (fun x y => np_abs (x - y)) a b).foldl np_max2 0

theorem foldl_np_max2_eq_foldl_max (l : List ℚ) (a : ℚ) :
    l.foldl np_max2 a = l.foldl max a := by
  induction l generalizing a with
  | nil => rfl
  | cons z zs ih => rw [List.foldl_cons, List.foldl_cons, np_max2_eq_max, ih]

theorem max_abs_diff_eq (a b : List ℚ) :
    max_abs_diff a b = (List.zipWith (fun x y => |x - y|) a b).foldl max 0 := by
  unfold max_abs_diff
  have hzip : List.zipWith (fun x y => np_abs (x - y)) a b
      = List.zipWith (fun x y => |x - y|) a b := by
    induction a generalizing b with
    | nil => rfl
    | cons x as ih =>
        cases b with
        | nil => rfl
        | cons y bs => simp [List.zipWith_cons_cons, np_abs_eq_abs, ih]
  rw [hzip, foldl_np_max2_eq_foldl_max]

/-- `state_and_transition_checks` (lines 324–369): raise (`Except.error`,
returning no model) when the simulation energy grid differs from the
transition grid by more than `1e-5` anywhere; otherwise run the three
removal passes in order and return the shrunk model. -/
def state_and_transition_checks (autoionization : Bool) (Egrid trans_Egrid : List ℚ)
    (states : List State) (transitions : List Transition) :
    Except String (List State × List Transition) :=
  if max_abs_diff Egrid trans_Egrid > 1 / 100000 then
    Except.error
      "Energy grid is different from grid on which transitions evaluated. This will be handled in the future."
  else
    Except.ok (remove_negative_iz_states autoionization (remove_orphan_states transitions states),
      remove_orphan_transitions
        (remove_negative_iz_states autoionization (remove_orphan_states transitions states))
        transitions)

/-! ### Lemmas about the removal passes -/

theorem remove_orphan_states_eq_filter (transitions : List Transition) (states : List State) :
    remove_orphan_states transitions states
      = states.filter (fun s =>
          !(get_associated_transitions s.id (transitions.map (fun t => t.from_id))
            (transitions.map (fun t => t.to_id))).isEmpty) := by
  unfold remove_orphan_states
  rw [List.filterMap_map]
  refine filterMap_guard_eq_filter _ _ (fun s => ?_) _
  by_cases h : get_associated_transitions s.id (transitions.map (fun t => t.from_id))
      (transitions.map (fun t => t.to_id)) = []
  · simp [h]
  · simp [h, List.isEmpty_iff]

theorem remove_negative_iz_states_false_eq_filter (states : List State) :
    remove_negative_iz_states false states
      = states.filter (fun s => !(decide (s.iz_energy < 0))) := by
  unfold remove_negative_iz_states
  rw [if_pos rfl, List.filterMap_map]
  refine filterMap_guard_eq_filter _ _ (fun s => ?_) _
  by_cases h : s.iz_energy < 0 <;> simp [h]

theorem remove_orphan_transitions_eq_filter (states : List State)
    (transitions : List Transition) :
    remove_orphan_transitions states transitions
      = transitions.filter (fun t =>
          ((states.map (fun s => s.id)).contains t.from_id)
            && ((states.map (fun s => s.id)).contains t.to_id)) := by
  unfold remove_orphan_transitions
  rw [List.filterMap_map]
  refine filterMap_guard_eq_filter _ _ (fun t => ?_) _
  by_cases hf : t.from_id ∈ states.map (fun s => s.id)
  · by_cases ht : t.to_id ∈ states.map (fun s => s.id)
    · simp only [List.mem_map] at hf ht
      simp [hf, ht]
    · simp only [List.mem_map] at hf ht
      simp [hf, ht]
  · simp only [List.mem_map] at hf
    simp [hf]

theorem get_associated_transitions_from_eq_nil (k : Nat) (i : Nat) (T : List Transition) :
    get_associated_transitions_from k i (T.map (fun t => t.from_id))
        (T.map (fun t => t.to_id)) = []
      ↔ ∀ t ∈ T, ¬(t.from_id = i ∨ t.to_id = i) := by
  induction T generalizing k with
  | nil => simp [get_associated_transitions_from]
  | cons t r ih =>
      simp only [List.map_cons, get_associated_transitions_from]
      by_cases h : (t.from_id == i || t.to_id == i) = true
      · rcases Bool.or_eq_true_iff.mp h with h1 | h1
        · simp [h, beq_iff_eq.mp h1]
        · simp [h, beq_iff_eq.mp h1]
      · have hne : ¬(t.from_id = i ∨ t.to_id = i) := by
          intro hc
          rcases hc with hc | hc <;> simp [hc] at h
        simp only [h, Bool.false_eq_true, if_false]
        rw [ih (k + 1)]
        constructor
        · intro hall
          intro u hu
          rcases List.mem_cons.mp hu with hu | hu
          · subst hu; exact hne
          · exact hall u hu
        · intro hall u hu
          exact hall u (List.mem_cons_of_mem t hu)

theorem get_associated_transitions_ne_nil (i : Nat) (T : List Transition) :
    ¬((get_associated_transitions i (T.map (fun t => t.from_id))
        (T.map (fun t => t.to_id))).isEmpty = true)
      ↔ ∃ t ∈ T, t.from_id = i ∨ t.to_id = i := by
  rw [List.isEmpty_iff, get_associated_transitions,
    get_associated_transitions_from_eq_nil 0 i T]
  push_neg
  constructor
  · rintro ⟨t, ht, hor⟩
    exact ⟨t, ht, hor⟩
  · rintro ⟨t, ht, hor⟩
    exact ⟨t, ht, hor⟩

/-- **C9.** Every removal pass of the integrity checker — orphaned-state
removal, removal of states with negative `iz_energy`, and
orphaned-transition removal — produces a sublist of its input, so each
surviving element precedes another survivor after the pass exactly when
it did before. -/
theorem c9_removal_passes_preserve_order (autoionization : Bool) (states : List State)
    (transitions : List Transition) :
    (remove_orphan_states transitions states).Sublist states ∧
    (remove_negative_iz_states autoionization states).Sublist states ∧
    (remove_orphan_transitions states transitions).Sublist transitions := by
  refine ⟨?_, ?_, ?_⟩
  · rw [remove_orphan_states_eq_filter]
    exact List.filter_sublist states
  · cases autoionization with
    | false =>
        rw [remove_negative_iz_states_false_eq_filter]
        exact List.filter_sublist states
    | true => exact List.Sublist.refl _
  · rw [remove_orphan_transitions_eq_filter]
    exact List.filter_sublist transitions

theorem lt_foldl_max (c a : ℚ) (l : List ℚ) :
    c < l.foldl max a ↔ c < a ∨ ∃ x ∈ l, c < x := by
  induction l generalizing a with
  | nil => simp
  | cons x xs ih =>
      rw [List.foldl_cons, ih (max a x)]
      simp only [lt_max_iff, List.mem_cons]
      constructor
      · rintro ((h | h) | ⟨y, hy, hcy⟩)
        · exact Or.inl h
        · exact Or.inr ⟨x, Or.inl rfl, h⟩
        · exact Or.inr ⟨y, Or.inr hy, hcy⟩
      · rintro (h | ⟨y, hy | hy, hcy⟩)
        · exact Or.inl (Or.inl h)
        · subst hy; exact Or.inl (Or.inr hcy)
        · exact Or.inr ⟨y, hy, hcy⟩

theorem exists_zipWith_abs_lt (c : ℚ) : ∀ (a b : List ℚ),
    ((∃ i, i < a.length ∧ i < b.length ∧ c < |a.getD i 0 - b.getD i 0|) ↔
      ∃ z ∈ List.zipWith (fun x y => |x - y|) a b, c < z)
  | [], b => by simp
  | x :: as, [] => by simp
  | x :: as, y :: bs => by
      simp only [List.zipWith_cons_cons, List.mem_cons]
      constructor
      · rintro ⟨i, hi1, hi2, hlt⟩
        cases i with
        | zero => exact ⟨|x - y|, Or.inl rfl, by simpa using hlt⟩
        | succ i =>
            obtain ⟨z, hz, hcz⟩ := (exists_zipWith_abs_lt c as bs).mp
              ⟨i, by simpa using hi1, by simpa using hi2, by simpa using hlt⟩
            exact ⟨z, Or.inr hz, hcz⟩
      · rintro ⟨z, hz | hz, hcz⟩
        · subst hz
          exact ⟨0, by simp, by simp, by simpa using hcz⟩
        · obtain ⟨i, hi1, hi2, hlt⟩ := (exists_zipWith_abs_lt c as bs).mpr ⟨z, hz, hcz⟩
          exact ⟨i + 1, by simpa using hi1, by simpa using hi2, by simpa using hlt⟩

theorem max_abs_diff_gt_iff (c : ℚ) (hc : 0 ≤ c) (a b : List ℚ) :
    c < max_abs_diff a b ↔
      ∃ i, i < a.length ∧ i < b.length ∧ c < |a.getD i 0 - b.getD i 0| := by
  rw [max_abs_diff_eq, lt_foldl_max, exists_zipWith_abs_lt]
  constructor
  · rintro (h | h)
    · exact absurd h (not_lt.mpr hc)
    · exact h
  · exact Or.inr

/-- **C2.** For every simulation energy grid and catalog transition grid
of the same (positive) length, `state_and_transition_checks` raises the
grid-mismatch error if and only if the absolute difference between the
two grids exceeds `1e-5` at some point; and when it raises, no
(partially-built) model is returned. -/
theorem c2_grid_mismatch (autoionization : Bool) (Egrid trans_Egrid : List ℚ)
    (states : List State) (transitions : List Transition)
    (hlen : Egrid.length = trans_Egrid.length) (_hne : 0 < Egrid.length) :
    ((∃ i, i < Egrid.length ∧ 1 / 100000 < |Egrid.getD i 0 - trans_Egrid.getD i 0|) ↔
      ∃ msg, state_and_transition_checks autoionization Egrid trans_Egrid states transitions
        = Except.error msg) ∧
    (∀ msg, state_and_transition_checks autoionization Egrid trans_Egrid states transitions
        = Except.error msg →
      ∀ res, state_and_transition_checks autoionization Egrid trans_Egrid states transitions
        ≠ Except.ok res) := by
  have hiff : (1 / 100000 : ℚ) < max_abs_diff Egrid trans_Egrid ↔
      ∃ i, i < Egrid.length ∧ 1 / 100000 < |Egrid.getD i 0 - trans_Egrid.getD i 0| := by
    rw [max_abs_diff_gt_iff (1 / 100000) (by norm_num) Egrid trans_Egrid]
    constructor
    · rintro ⟨i, hi1, _, hlt⟩
      exact ⟨i, hi1, hlt⟩
    · rintro ⟨i, hi1, hlt⟩
      exact ⟨i, hi1, hlen ▸ hi1, hlt⟩
  constructor
  · by_cases hgt : max_abs_diff Egrid trans_Egrid > 1 / 100000
    · constructor
      · intro _
        exact ⟨"Energy grid is different from grid on which transitions evaluated. This will be handled in the future.",
          by rw [state_and_transition_checks, if_pos hgt]⟩
      · intro _
        exact hiff.mp hgt
    · constructor
      · intro hex
        exact absurd (hiff.mpr hex) hgt
      · rintro ⟨msg, hmsg⟩
        rw [state_and_transition_checks, if_neg hgt] at hmsg
        cases hmsg
  · intro msg hmsg res hres
    rw [hmsg] at hres
    cases hres

/-- Witness for C2 at concrete grids `[0]` and `[1]` (mismatch `1 > 1e-5`). -/
theorem c2_grid_mismatch_witness :
    (([(0 : ℚ)] : List ℚ).length = ([(1 : ℚ)] : List ℚ).length) ∧
    (0 < ([(0 : ℚ)] : List ℚ).length) ∧
    (((∃ i, i < ([(0 : ℚ)] : List ℚ).length ∧
        1 / 100000 < |([(0 : ℚ)] : List ℚ).getD i 0 - ([(1 : ℚ)] : List ℚ).getD i 0|) ↔
      ∃ msg, state_and_transition_checks true [(0 : ℚ)] [(1 : ℚ)] [] []
        = Except.error msg) ∧
    (∀ msg, state_and_transition_checks true [(0 : ℚ)] [(1 : ℚ)] [] []
        = Except.error msg →
      ∀ res, state_and_transition_checks true [(0 : ℚ)] [(1 : ℚ)] [] []
        ≠ Except.ok res)) :=
  ⟨rfl, by decide, c2_grid_mismatch true [(0 : ℚ)] [(1 : ℚ)] [] [] rfl (by decide)⟩

/-- **C4 counterexample.** The claimed post-checks invariant fails on the
code: with autoionization disabled, states with ids 0–3 where state 1 has
negative `iz_energy`, and transitions `0→1` and `2→3`, the checks return
three surviving states (so not the degenerate single-isolated-state
model), yet surviving state id 0 has no associated transition among the
surviving transitions: the negative-`iz_energy` pass runs after orphan
detection, and the subsequent transition pruning re-orphans state 0. -/
theorem c4_integrity_counterexample :
    state_and_transition_checks false [(0 : ℚ)] [(0 : ℚ)]
        [{ id := 0, Z := 0, energy := 0, stat_weight := 1 },
         { id := 1, Z := 0, energy := 0, stat_weight := 1, iz_energy := -1 },
         { id := 2, Z := 0, energy := 0, stat_weight := 1 },
         { id := 3, Z := 0, energy := 0, stat_weight := 1 }]
        [{ type := TransType.excitation, from_id := 0, to_id := 1 },
         { type := TransType.excitation, from_id := 2, to_id := 3 }]
      = Except.ok ([{ id := 0, Z := 0, energy := 0, stat_weight := 1 },
          { id := 2, Z := 0, energy := 0, stat_weight := 1 },
          { id := 3, Z := 0, energy := 0, stat_weight := 1 }],
         [{ type := TransType.excitation, from_id := 2, to_id := 3 }]) ∧
    ([{ id := 0, Z := 0, energy := 0, stat_weight := 1 },
      { id := 2, Z := 0, energy := 0, stat_weight := 1 },
      { id := 3, Z := 0, energy := 0, stat_weight := 1 }] : List State).length = 3 ∧
    ({ id := 0, Z := 0, energy := 0, stat_weight := 1 } : State) ∈
      ([{ id := 0, Z := 0, energy := 0, stat_weight := 1 },
        { id := 2, Z := 0, energy := 0, stat_weight := 1 },
        { id := 3, Z := 0, energy := 0, stat_weight := 1 }] : List State) ∧
    get_associated_transitions 0
        (([{ type := TransType.excitation, from_id := 2, to_id := 3 }] : List Transition).map
          (fun t => t.from_id))
        (([{ type := TransType.excitation, from_id := 2, to_id := 3 }] : List Transition).map
          (fun t => t.to_id)) = [] := by
  refine ⟨?_, rfl, by decide, rfl⟩
  norm_num +decide [state_and_transition_checks, max_abs_diff, np_abs, np_max2,
    remove_orphan_states, remove_negative_iz_states, remove_orphan_transitions,
    get_associated_transitions, get_associated_transitions_from,
    List.filterMap_cons, List.contains_cons]

/-- **C4 (amended).** After `state_and_transition_checks` completes
without error — under any autoionization setting — every surviving
transition's `from_id` and `to_id` reference states present in the
surviving state list; and, provided additionally that the
negative-`iz_energy` pass is inactive (autoionization enabled) and every
input transition's endpoints name states of the input list, every
surviving state has at least one associated transition among the
surviving transitions. -/
theorem c4_integrity_amended (autoionization : Bool) (Egrid trans_Egrid : List ℚ)
    (states states' : List State) (transitions transitions' : List Transition)
    (hok : state_and_transition_checks autoionization Egrid trans_Egrid states transitions
        = Except.ok (states', transitions')) :
    (∀ t ∈ transitions',
      (∃ s ∈ states', s.id = t.from_id) ∧ (∃ s ∈ states', s.id = t.to_id)) ∧
    (autoionization = true →
      (∀ t ∈ transitions,
        (∃ s ∈ states, s.id = t.from_id) ∧ (∃ s ∈ states, s.id = t.to_id)) →
      ∀ s ∈ states',
        ¬((get_associated_transitions s.id (transitions'.map (fun t => t.from_id))
            (transitions'.map (fun t => t.to_id))).isEmpty = true)) := by
  by_cases hgt : max_abs_diff Egrid trans_Egrid > 1 / 100000
  · rw [state_and_transition_checks, if_pos hgt] at hok
    cases hok
  · rw [state_and_transition_checks, if_neg hgt] at hok
    injection hok with hok
    injection hok with hs ht
    have hstates' : states'
        = remove_negative_iz_states autoionization (remove_orphan_states transitions states) :=
      hs.symm
    have htrans' : transitions' = remove_orphan_transitions states' transitions := by
      rw [← ht, hstates']
    -- the transition-pruning pass filters against the final state list, so the
    -- endpoint invariant below needs no assumption on the earlier passes
    have htsurv : ∀ t ∈ transitions,
        t.from_id ∈ states'.map (fun s => s.id) →
        t.to_id ∈ states'.map (fun s => s.id) → t ∈ transitions' := by
      intro t htmem hf hto
      rw [htrans', remove_orphan_transitions_eq_filter, List.mem_filter]
      refine ⟨htmem, ?_⟩
      simp only [Bool.and_eq_true]
      constructor
      · simp only [List.contains_iff_exists_mem_beq]
        obtain ⟨u, hu, huid⟩ := List.mem_map.mp hf
        exact ⟨u.id, List.mem_map_of_mem (fun s => s.id) hu, by simp [huid]⟩
      · simp only [List.contains_iff_exists_mem_beq]
        obtain ⟨v, hv, hvid⟩ := List.mem_map.mp hto
        exact ⟨v.id, List.mem_map_of_mem (fun s => s.id) hv, by simp [hvid]⟩
    refine ⟨?_, ?_⟩
    · intro t htmem
      rw [htrans', remove_orphan_transitions_eq_filter, List.mem_filter] at htmem
      obtain ⟨_, hcond⟩ := htmem
      simp only [Bool.and_eq_true] at hcond
      obtain ⟨hf, hto⟩ := hcond
      have hf' : t.from_id ∈ states'.map (fun s => s.id) := by
        simp only [List.contains_iff_exists_mem_beq] at hf
        obtain ⟨x, hx, hbx⟩ := hf
        rw [show t.from_id = x from beq_iff_eq.mp hbx]
        exact hx
      have hto' : t.to_id ∈ states'.map (fun s => s.id) := by
        simp only [List.contains_iff_exists_mem_beq] at hto
        obtain ⟨x, hx, hbx⟩ := hto
        rw [show t.to_id = x from beq_iff_eq.mp hbx]
        exact hx
      rw [List.mem_map] at hf' hto'
      obtain ⟨u, hu, huid⟩ := hf'
      obtain ⟨v, hv, hvid⟩ := hto'
      exact ⟨⟨u, hu, huid⟩, ⟨v, hv, hvid⟩⟩
    · intro hauto hcover
      subst hauto
      have hstates'' : states' = remove_orphan_states transitions states := by
        rw [hstates']
        rfl
      -- membership characterization of the surviving state list
      have hsurv : ∀ u, u ∈ states' ↔ u ∈ states ∧
          ¬((get_associated_transitions u.id (transitions.map (fun t => t.from_id))
            (transitions.map (fun t => t.to_id))).isEmpty = true) := by
        intro u
        rw [hstates'', remove_orphan_states_eq_filter, List.mem_filter]
        constructor
        · rintro ⟨h1, h2⟩
          exact ⟨h1, by simpa using h2⟩
        · rintro ⟨h1, h2⟩
          exact ⟨h1, by simpa using h2⟩
      intro s hs
      have hs' := (hsurv s).mp hs
      obtain ⟨hsmem, hassoc⟩ := hs'
      obtain ⟨t, htmem, htouch⟩ :=
        (get_associated_transitions_ne_nil s.id transitions).mp hassoc
      obtain ⟨⟨u, hu, huid⟩, ⟨v, hv, hvid⟩⟩ := hcover t htmem
      -- both endpoint states survive the orphan pass, since `t` touches them
      have husurv : u ∈ states' := by
        rw [hsurv u]
        refine ⟨hu, (get_associated_transitions_ne_nil u.id transitions).mpr ?_⟩
        exact ⟨t, htmem, Or.inl huid.symm⟩
      have hvsurv : v ∈ states' := by
        rw [hsurv v]
        refine ⟨hv, (get_associated_transitions_ne_nil v.id transitions).mpr ?_⟩
        exact ⟨t, htmem, Or.inr hvid.symm⟩
      have htin : t ∈ transitions' := by
        refine htsurv t htmem ?_ ?_
        · rw [List.mem_map]
          exact ⟨u, husurv, huid⟩
        · rw [List.mem_map]
          exact ⟨v, hvsurv, hvid⟩
      exact (get_associated_transitions_ne_nil s.id transitions').mpr ⟨t, htin, htouch⟩

/-- Witness for the amended C4: two states ids 0, 1 with one transition
`0→1`, autoionization enabled, matching grids. -/
theorem c4_integrity_amended_witness :
    (state_and_transition_checks true [(0 : ℚ)] [(0 : ℚ)]
        [{ id := 0, Z := 0, energy := 0, stat_weight := 1 },
         { id := 1, Z := 0, energy := 0, stat_weight := 1 }]
        [{ type := TransType.excitation, from_id := 0, to_id := 1 }]
      = Except.ok ([{ id := 0, Z := 0, energy := 0, stat_weight := 1 },
          { id := 1, Z := 0, energy := 0, stat_weight := 1 }],
         [{ type := TransType.excitation, from_id := 0, to_id := 1 }])) ∧
    ((∀ t ∈ ([{ type := TransType.excitation, from_id := 0, to_id := 1 }] : List Transition),
      (∃ s ∈ ([{ id := 0, Z := 0, energy := 0, stat_weight := 1 },
          { id := 1, Z := 0, energy := 0, stat_weight := 1 }] : List State), s.id = t.from_id) ∧
      (∃ s ∈ ([{ id := 0, Z := 0, energy := 0, stat_weight := 1 },
          { id := 1, Z := 0, energy := 0, stat_weight := 1 }] : List State), s.id = t.to_id)) ∧
    (true = true →
      (∀ t ∈ ([{ type := TransType.excitation, from_id := 0, to_id := 1 }] : List Transition),
        (∃ s ∈ ([{ id := 0, Z := 0, energy := 0, stat_weight := 1 },
            { id := 1, Z := 0, energy := 0, stat_weight := 1 }] : List State), s.id = t.from_id) ∧
        (∃ s ∈ ([{ id := 0, Z := 0, energy := 0, stat_weight := 1 },
            { id := 1, Z := 0, energy := 0, stat_weight := 1 }] : List State), s.id = t.to_id)) →
      ∀ s ∈ ([{ id := 0, Z := 0, energy := 0, stat_weight := 1 },
          { id := 1, Z := 0, energy := 0, stat_weight := 1 }] : List State),
        ¬((get_associated_transitions s.id
            (([{ type := TransType.excitation, from_id := 0, to_id := 1 }] : List Transition).map
              (fun t => t.from_id))
            (([{ type := TransType.excitation, from_id := 0, to_id := 1 }] : List Transition).map
              (fun t => t.to_id))).isEmpty = true))) :=
  ⟨by norm_num +decide [state_and_transition_checks, max_abs_diff, np_abs, np_max2,
     remove_orphan_states, remove_negative_iz_states, remove_orphan_transitions,
     get_associated_transitions, get_associated_transitions_from,
     List.filterMap_cons, List.contains_cons],
   c4_integrity_amended true [(0 : ℚ)] [(0 : ℚ)]
     [{ id := 0, Z := 0, energy := 0, stat_weight := 1 },
      { id := 1, Z := 0, energy := 0, stat_weight := 1 }]
     [{ id := 0, Z := 0, energy := 0, stat_weight := 1 },
      { id := 1, Z := 0, energy := 0, stat_weight := 1 }]
     [{ type := TransType.excitation, from_id := 0, to_id := 1 }]
     [{ type := TransType.excitation, from_id := 0, to_id := 1 }]
     (by norm_num +decide [state_and_transition_checks, max_abs_diff, np_abs, np_max2,
       remove_orphan_states, remove_negative_iz_states, remove_orphan_transitions,
       get_associated_transitions, get_associated_transitions_from,
       List.filterMap_cons, List.contains_cons])⟩

/-! ### Density initializer, fixed-fraction / unit branch
(`init_dens`, lines 423–434) -/

/-- `np.zeros((rows, cols))`. -/
def np_zeros (rows cols : Nat) : List (List ℚ) :=
  List.replicate rows (List.replicate cols 0)

/-- `dens[:, 0] = vals`: overwrite column 0 of the matrix row-wise. -/
def set_col0 (mat : List (List ℚ)) (vals : List ℚ) : List (List ℚ) :=
  List.zipWith (fun row v =>
    match row with
    | [] => ([] : List ℚ)
    | _ :: rest => v :: rest) mat vals

/-- The non-equilibrium branch of `init_dens` (lines 423–434), reached
when Saha–Boltzmann initialisation is not requested: allocate a zero
matrix with one row per profile sample and one column per evolved state,
then write into column 0 either `frac_imp_dens * ne` (fixed-fraction
requested) or `1.0`.  The same computation fills `self.dens` (kinetic)
and `self.dens_Max` (Maxwellian); both arrays are modelled by this one
function. -/
def init_dens_fixed (fixed_fraction_init : Bool) (frac_imp_dens : ℚ)
    (ne : List ℚ) (tot_states : Nat) : List (List ℚ) :=
  if fixed_fraction_init then
    set_col0 (np_zeros ne.length tot_states) (ne.map (fun x => frac_imp_dens * x))
  else
    set_col0 (np_zeros ne.length tot_states) (List.replicate ne.length 1)

theorem set_col0_zeros (c : Nat) (hc : 0 < c) (l : List ℚ) :
    set_col0 (np_zeros l.length c) l = l.map (fun v => v :: List.replicate (c - 1) 0) := by
  induction l with
  | nil => rfl
  | cons v vs ih =>
      cases c with
      | zero => omega
      | succ k =>
          show set_col0 (List.replicate (vs.length + 1) (List.replicate (k + 1) 0)) (v :: vs)
            = (v :: List.replicate k 0) :: vs.map (fun v => v :: List.replicate k 0)
          rw [List.replicate_succ, List.replicate_succ]
          show (v :: List.replicate k 0)
              :: set_col0 (List.replicate vs.length (List.replicate (k + 1) 0)) vs
            = (v :: List.replicate k 0) :: vs.map (fun v => v :: List.replicate k 0)
          rw [show List.replicate vs.length (List.replicate (k + 1) 0) = np_zeros vs.length (k + 1) from rfl]
          rw [ih]
          simp

/-- **C7.** When Saha–Boltzmann initialisation is not requested,
`init_dens` gives density only to the first (position 0) evolved state at
every profile sample — `frac_imp_dens * ne` there if fixed-fraction
initialisation is requested and `1.0` otherwise — and every other state's
initial density is zero: each row of the density matrix is the column-0
value followed by `tot_states - 1` zeros. -/
theorem c7_init_dens_fixed (fixed_fraction_init : Bool) (frac_imp_dens : ℚ)
    (ne : List ℚ) (tot_states : Nat) (h : 0 < tot_states) :
    init_dens_fixed fixed_fraction_init frac_imp_dens ne tot_states
      = ne.map (fun x =>
          (if fixed_fraction_init then frac_imp_dens * x else 1)
            :: List.replicate (tot_states - 1) 0) := by
  cases fixed_fraction_init with
  | true =>
      rw [init_dens_fixed, if_pos rfl]
      have hlen : ne.length = (ne.map (fun x => frac_imp_dens * x)).length :=
        (List.length_map ne (fun x => frac_imp_dens * x)).symm
      rw [hlen, set_col0_zeros tot_states h, List.map_map]
      simp
  | false =>
      rw [init_dens_fixed, if_neg (by simp)]
      have hlen : ne.length = (List.replicate ne.length (1 : ℚ)).length :=
        (List.length_replicate ne.length (1 : ℚ)).symm
      nth_rewrite 1 [hlen]
      rw [set_col0_zeros tot_states h, List.map_replicate]
      simp [List.map_const']

/-- Witness for C7 at the spec's concrete instance: `frac_imp_dens = 0.01`
and electron densities `[1e19, 2e19]` yield first-state densities
`[1e17, 2e17]` with all other states zero. -/
theorem c7_init_dens_fixed_witness :
    (0 < 3) ∧
    init_dens_fixed true (1 / 100) [(10 : ℚ) ^ 19, 2 * 10 ^ 19] 3
      = [[(10 : ℚ) ^ 17, 0, 0], [2 * 10 ^ 17, 0, 0]] :=
  ⟨Nat.succ_pos 2, by
    rw [c7_init_dens_fixed true (1 / 100) [(10 : ℚ) ^ 19, 2 * 10 ^ 19] 3 (Nat.succ_pos 2)]
    norm_num [List.replicate]⟩

/-! ### Ground states and ionization energies
(`init_ionization_energies`, lines 200–230) -/

/-- Modelled from the spec: `np.argmin` — the index of the first
occurrence of the minimum value of a list (undefined on an empty list). -/
def np_argmin (l : List ℚ) : Option Nat :=
  firstIdxWhere (fun x => l.all (fun y => decide (x ≤ y))) l

/-- `[s for s in self.states if s.Z == Z]`. -/
def stage_states (Z : Nat) (states : List State) : List State :=
  states.filter (fun s => s.Z == Z)

/-- `gs = Z_states[np.argmin(energies)]` (lines 207–209): the
minimum-energy state of stage `Z`, first occurrence on a tie. -/
def stage_ground (Z : Nat) (states : List State) : Option State :=
  match np_argmin ((stage_states Z states).map (fun s => s.energy)) with
  | some k => (stage_states Z states)[k]?
  | none => none

/-- `gs_energies[Z]` (line 213); 0 is the `np.zeros` default for a stage
the loop never fills (unreachable when every stage is present). -/
def gs_energy (Z : Nat) (states : List State) : ℚ :=
  match stage_ground Z states with
  | some gs => gs.energy
  | none => 0

/-- `gs_pos[Z]` (lines 210–214): the first index `i` of the full state
list with `self.states[i].equals(gs)`; 0 is the `np.zeros` default. -/
def gs_pos (Z : Nat) (states : List State) : Nat :=
  match stage_ground Z states with
  | some gs => (firstIdxWhere (fun s => s.equals gs) states).getD 0
  | none => 0

/-- The whole `gs_pos` array, used by the `if i in gs_pos` test of
line 218. -/
def gs_pos_list (num_Z : Nat) (states : List State) : List Nat :=
  (List.range num_Z).map (fun Z => gs_pos Z states)

/-- The per-state update of the second loop (lines 217–230): mark
`ground`, set `iz_energy` against the next stage's ground-state energy
(0 for the top stage), set `energy_from_gs` against the own stage's
ground-state energy. -/
def update_state_energies (num_Z : Nat) (states : List State) (i : Nat) (s : State) : State :=
  { s with
    ground := (gs_pos_list num_Z states).contains i,
    iz_energy := if s.Z < num_Z - 1 then gs_energy (s.Z + 1) states - s.energy else 0,
    energy_from_gs := s.energy - gs_energy s.Z states }

/-- `init_ionization_energies` (lines 200–230).  The run completes only
when every stage `Z < num_Z` has a state (otherwise `np.argmin` of an
empty list raises) and every state's stage is below `num_Z` (otherwise
the `gs_energies[Z]` lookups raise); `none` models those crashes. -/
def init_ionization_energies (num_Z : Nat) (states : List State) : Option (List State) :=
  if (List.range num_Z).all (fun Z => !(stage_states Z states).isEmpty)
      && states.all (fun s => decide (s.Z < num_Z)) then
    some (enumMap (update_state_energies num_Z states) states)
  else none

/-- Spec-side characterization: `s` is a stage-`Z` state of minimal energy
within stage `Z`. -/
def is_stage_min (Z : Nat) (states : List State) (s : State) : Bool :=
  s.Z == Z && (stage_states Z states).all (fun t => decide (s.energy ≤ t.energy))

/-- Spec-side characterization: the index of "the minimum-energy state of
stage `Z`, ties broken by first occurrence in list order". -/
def spec_first_min_idx (Z : Nat) (states : List State) : Option Nat :=
  firstIdxWhere (is_stage_min Z states) states

/-- The minimum value of a list of rationals. -/
def listMin : List ℚ → Option ℚ
  | [] => none
  | x :: xs =>
      match listMin xs with
      | none => some x
      | some m => some (if x ≤ m then x else m)

/-- Spec-side: the ground-state (minimum) energy of stage `Z`. -/
def stage_min_energy (Z : Nat) (states : List State) : Option ℚ :=
  listMin ((stage_states Z states).map (fun s => s.energy))

/-! ### Lemmas for C6 -/

theorem firstIdxWhere_eq_some_iff {α : Type} (p : α → Bool) (l : List α) (k : Nat) :
    firstIdxWhere p l = some k ↔
      ((∃ a, l[k]? = some a ∧ p a = true) ∧
        ∀ j, j < k → ∀ b, l[j]? = some b → p b = false) := by
  induction l generalizing k with
  | nil => simp [firstIdxWhere]
  | cons a r ih =>
      by_cases hpa : p a = true
      · rw [firstIdxWhere, if_pos hpa]
        constructor
        · intro hk
          injection hk with hk
          subst hk
          refine ⟨⟨a, by simp, hpa⟩, fun j hj b => by omega⟩
        · rintro ⟨⟨b, hb, hpb⟩, hfirst⟩
          cases k with
          | zero => rfl
          | succ k =>
              have hfalse := hfirst 0 (by omega) a (by simp)
              rw [hpa] at hfalse
              cases hfalse
      · rw [firstIdxWhere, if_neg hpa]
        cases k with
        | zero =>
            constructor
            · intro hk
              cases hmap : firstIdxWhere p r with
              | none => rw [hmap] at hk; cases hk
              | some j =>
                  rw [hmap] at hk
                  have hj : j + 1 = 0 := Option.some.inj hk
                  omega
            · rintro ⟨⟨b, hb, hpb⟩, _⟩
              simp only [List.getElem?_cons_zero, Option.some.injEq] at hb
              subst hb
              exact absurd hpb hpa
        | succ k =>
            constructor
            · intro hk
              cases hmap : firstIdxWhere p r with
              | none => rw [hmap] at hk; cases hk
              | some j =>
                  rw [hmap] at hk
                  have hj1 : j + 1 = k + 1 := Option.some.inj hk
                  have hj : j = k := by omega
                  subst hj
                  obtain ⟨⟨b, hb, hpb⟩, hfirst⟩ := (ih j).mp hmap
                  refine ⟨⟨b, by simpa using hb, hpb⟩, ?_⟩
                  intro j' hj' c hc
                  cases j' with
                  | zero =>
                      simp only [List.getElem?_cons_zero, Option.some.injEq] at hc
                      subst hc
                      exact Bool.eq_false_iff.mpr hpa
                  | succ j' =>
                      simp only [List.getElem?_cons_succ] at hc
                      exact hfirst j' (by omega) c hc
            · rintro ⟨⟨b, hb, hpb⟩, hfirst⟩
              simp only [List.getElem?_cons_succ] at hb
              have hr : firstIdxWhere p r = some k := by
                refine (ih k).mpr ⟨⟨b, hb, hpb⟩, ?_⟩
                intro j hj c hc
                exact hfirst (j + 1) (by omega) c (by simpa using hc)
              rw [hr]
              rfl

theorem firstIdxWhere_eq_none_iff {α : Type} (p : α → Bool) (l : List α) :
    firstIdxWhere p l = none ↔ ∀ a ∈ l, p a = false := by
  induction l with
  | nil => simp [firstIdxWhere]
  | cons a r ih =>
      by_cases hpa : p a = true
      · constructor
        · intro hc
          rw [firstIdxWhere, if_pos hpa] at hc
          cases hc
        · intro hall
          have hfalse := hall a (List.mem_cons_self a r)
          rw [hpa] at hfalse
          cases hfalse
      · rw [firstIdxWhere, if_neg hpa]
        constructor
        · intro hk b hb
          rcases List.mem_cons.mp hb with hb | hb
          · subst hb
            exact Bool.eq_false_iff.mpr hpa
          · cases hmap : firstIdxWhere p r with
            | none => exact ih.mp hmap b hb
            | some j => rw [hmap] at hk; cases hk
        · intro hall
          have hr : firstIdxWhere p r = none :=
            ih.mpr (fun b hb => hall b (List.mem_cons_of_mem a hb))
          rw [hr]
          rfl

theorem firstIdxWhere_map {α β : Type} (p : β → Bool) (f : α → β) (l : List α) :
    firstIdxWhere p (l.map f) = firstIdxWhere (fun a => p (f a)) l := by
  induction l with
  | nil => rfl
  | cons a r ih =>
      by_cases hpa : p (f a) = true
      · rw [List.map_cons, firstIdxWhere, if_pos hpa, firstIdxWhere, if_pos hpa]
      · rw [List.map_cons, firstIdxWhere, if_neg hpa, firstIdxWhere, if_neg hpa, ih]

theorem firstIdxWhere_congr {α : Type} (p q : α → Bool) (l : List α)
    (h : ∀ a, p a = q a) : firstIdxWhere p l = firstIdxWhere q l := by
  induction l with
  | nil => rfl
  | cons a r ih => simp only [firstIdxWhere, h a, ih]

theorem firstIdxWhere_isSome_of_mem {α : Type} (p : α → Bool) (l : List α) (a : α)
    (ha : a ∈ l) (hpa : p a = true) : ∃ k, firstIdxWhere p l = some k := by
  cases hmap : firstIdxWhere p l with
  | none =>
      have hfalse := (firstIdxWhere_eq_none_iff p l).mp hmap a ha
      rw [hpa] at hfalse
      cases hfalse
  | some k => exact ⟨k, rfl⟩

theorem exists_min_of_ne_nil : ∀ (l : List ℚ), l ≠ [] → ∃ x ∈ l, ∀ y ∈ l, x ≤ y
  | [], h => absurd rfl h
  | x :: xs, _ => by
      by_cases hxs : xs = []
      · subst hxs
        refine ⟨x, List.mem_cons_self x [], ?_⟩
        intro y hy
        rcases List.mem_cons.mp hy with hy | hy
        · exact le_of_eq hy.symm
        · cases hy
      · obtain ⟨m, hm, hmin⟩ := exists_min_of_ne_nil xs hxs
        by_cases hxm : x ≤ m
        · refine ⟨x, List.mem_cons_self x xs, ?_⟩
          intro y hy
          rcases List.mem_cons.mp hy with hy | hy
          · exact le_of_eq hy.symm
          · exact le_trans hxm (hmin y hy)
        · refine ⟨m, List.mem_cons_of_mem x hm, ?_⟩
          intro y hy
          rcases List.mem_cons.mp hy with hy | hy
          · rw [hy]; exact le_of_lt (not_le.mp hxm)
          · exact hmin y hy

theorem listMin_mem : ∀ (l : List ℚ) (m : ℚ), listMin l = some m → m ∈ l
  | [], m, h => by cases h
  | x :: xs, m, h => by
      rw [listMin] at h
      cases hxs : listMin xs with
      | none =>
          rw [hxs] at h
          have hxm : x = m := Option.some.inj h
          rw [← hxm]
          exact List.mem_cons_self x xs
      | some mb =>
          rw [hxs] at h
          have h2 : (if x ≤ mb then x else mb) = m := Option.some.inj h
          by_cases hble : x ≤ mb
          · rw [if_pos hble] at h2
            rw [← h2]
            exact List.mem_cons_self x xs
          · rw [if_neg hble] at h2
            rw [← h2]
            exact List.mem_cons_of_mem x (listMin_mem xs mb hxs)

theorem listMin_eq_some_of (l : List ℚ) (m : ℚ) (hm : m ∈ l) (hmin : ∀ y ∈ l, m ≤ y) :
    listMin l = some m := by
  induction l with
  | nil => cases hm
  | cons x xs ih =>
      rcases List.mem_cons.mp hm with hx | hx
      · subst hx
        cases hxs : listMin xs with
        | none => rw [listMin, hxs]
        | some m' =>
            have hm'mem : m' ∈ xs := listMin_mem xs m' hxs
            have hle : m ≤ m' := hmin m' (List.mem_cons_of_mem m hm'mem)
            rw [listMin, hxs]
            show some (if m ≤ m' then m else m') = some m
            rw [if_pos hle]
      · have hxmin : ∀ y ∈ xs, m ≤ y := fun y hy => hmin y (List.mem_cons_of_mem x hy)
        have hxseq := ih hx hxmin
        have hmx : m ≤ x := hmin x (List.mem_cons_self x xs)
        rw [listMin, hxseq]
        show some (if x ≤ m then x else m) = some m
        by_cases hxm : x ≤ m
        · rw [if_pos hxm, le_antisymm hxm hmx]
        · rw [if_neg hxm]

theorem enumMapFrom_getElem? {α β : Type} (f : Nat → α → β) (k : Nat) (l : List α) (j : Nat) :
    (enumMapFrom f k l)[j]? = (l[j]?).map (f (k + j)) := by
  induction l generalizing k j with
  | nil => simp [enumMapFrom]
  | cons a r ih =>
      cases j with
      | zero => simp [enumMapFrom]
      | succ j =>
          simp only [enumMapFrom, List.getElem?_cons_succ, ih]
          have h : k + 1 + j = k + (j + 1) := by omega
          rw [h]

theorem firstIdxWhere_filter {α : Type} (p q : α → Bool) (l : List α) (k : Nat) (gs : α)
    (hk : firstIdxWhere q (l.filter p) = some k)
    (hgs : (l.filter p)[k]? = some gs) :
    ∃ i, firstIdxWhere (fun a => p a && q a) l = some i ∧ l[i]? = some gs := by
  induction l generalizing k with
  | nil => cases hk
  | cons a r ih =>
      by_cases hpa : p a = true
      · rw [List.filter_cons, if_pos hpa] at hk hgs
        by_cases hqa : q a = true
        · rw [firstIdxWhere, if_pos hqa] at hk
          have hk0 : 0 = k := Option.some.inj hk
          subst hk0
          simp only [List.getElem?_cons_zero, Option.some.injEq] at hgs
          subst hgs
          refine ⟨0, ?_, by simp⟩
          rw [firstIdxWhere, if_pos (by rw [hpa, hqa]; rfl)]
        · rw [firstIdxWhere, if_neg hqa] at hk
          cases hmap : firstIdxWhere q (r.filter p) with
          | none => rw [hmap] at hk; cases hk
          | some k' =>
              rw [hmap] at hk
              have hk1 : k' + 1 = k := Option.some.inj hk
              subst hk1
              simp only [List.getElem?_cons_succ] at hgs
              obtain ⟨i, hi, hgi⟩ := ih k' hmap hgs
              refine ⟨i + 1, ?_, by simpa using hgi⟩
              rw [firstIdxWhere, if_neg (by
                intro hc
                simp only [Bool.and_eq_true] at hc
                exact hqa hc.2), hi]
              rfl
      · rw [List.filter_cons, if_neg hpa] at hk hgs
        obtain ⟨i, hi, hgi⟩ := ih k hk hgs
        refine ⟨i + 1, ?_, by simpa using hgi⟩
        rw [firstIdxWhere, if_neg (by rw [Bool.eq_false_iff.mpr hpa]; simp), hi]
        rfl

theorem all_map_eq {α β : Type} (f : α → β) (p : β → Bool) (l : List α) :
    (l.map f).all p = l.all (fun a => p (f a)) := by
  induction l with
  | nil => rfl
  | cons a r ih => simp [ih]

theorem State.equals_refl (s : State) : s.equals s = true := by
  simp [State.equals]

theorem State.equals_spec (s t : State) :
    s.equals t = true ↔ s.id = t.id ∧ s.Z = t.Z ∧ s.energy = t.energy
      ∧ s.stat_weight = t.stat_weight := by
  simp only [State.equals, Bool.and_eq_true, beq_iff_eq]
  tauto

theorem contains_nat_iff (l : List Nat) (x : Nat) : l.contains x = true ↔ x ∈ l := by
  simp [List.contains_iff_exists_mem_beq]

/-- The central characterization: when stage `Z` is present, the code's
ground-state bookkeeping (`stage_ground`, `gs_pos`, `gs_energy`) lands on
the state at the spec-side index `spec_first_min_idx Z states` — the first
minimum-energy stage-`Z` state in list order. -/
theorem stage_ground_spec (Z : Nat) (states : List State)
    (hne : stage_states Z states ≠ []) :
    ∃ i gs, spec_first_min_idx Z states = some i ∧ states[i]? = some gs ∧
      gs_pos Z states = i ∧ gs_energy Z states = gs.energy ∧
      stage_ground Z states = some gs ∧ is_stage_min Z states gs = true := by
  have hFne : (stage_states Z states).map (fun s => s.energy) ≠ [] := by
    intro hc
    exact hne (List.map_eq_nil_iff.mp hc)
  -- a minimal element of the energies exists, so np.argmin succeeds
  obtain ⟨x, hx, hxmin⟩ := exists_min_of_ne_nil _ hFne
  have hpx : ((stage_states Z states).map (fun s => s.energy)).all
      (fun y => decide (x ≤ y)) = true :=
    List.all_eq_true.mpr (fun y hy => decide_eq_true (hxmin y hy))
  obtain ⟨k, hk⟩ := firstIdxWhere_isSome_of_mem
    (fun x : ℚ => ((stage_states Z states).map (fun s => s.energy)).all
      (fun y => decide (x ≤ y)))
    ((stage_states Z states).map (fun s => s.energy)) x hx hpx
  have hargmin : np_argmin ((stage_states Z states).map (fun s => s.energy)) = some k := hk
  -- transfer the argmin index from the energy list to the state list
  have hkF : firstIdxWhere
      (fun s : State => ((stage_states Z states).map (fun t => t.energy)).all
        (fun y => decide (s.energy ≤ y))) (stage_states Z states) = some k := by
    have h2 := hk
    rw [firstIdxWhere_map] at h2
    exact h2
  obtain ⟨⟨gs, hgsk, hqgs⟩, _⟩ := (firstIdxWhere_eq_some_iff _ _ _).mp hkF
  have hground : stage_ground Z states = some gs := by
    rw [stage_ground, hargmin]
    exact hgsk
  have henergy : gs_energy Z states = gs.energy := by
    rw [gs_energy, hground]
  -- the spec-side index through the filter correspondence
  have hkF' : firstIdxWhere
      (fun s : State => ((stage_states Z states).map (fun t => t.energy)).all
        (fun y => decide (s.energy ≤ y)))
      (states.filter (fun s : State => s.Z == Z)) = some k := hkF
  have hgsk' : (states.filter (fun s : State => s.Z == Z))[k]? = some gs := hgsk
  obtain ⟨i, hi, hgi⟩ := firstIdxWhere_filter (fun s : State => s.Z == Z)
    (fun s : State => ((stage_states Z states).map (fun t => t.energy)).all
      (fun y => decide (s.energy ≤ y))) states k gs hkF' hgsk'
  have hconv : ∀ s : State,
      ((s.Z == Z) && ((stage_states Z states).map (fun t => t.energy)).all
        (fun y => decide (s.energy ≤ y)))
      = is_stage_min Z states s := by
    intro s
    rw [is_stage_min, all_map_eq]
  have hspec : spec_first_min_idx Z states = some i := by
    rw [spec_first_min_idx, ← firstIdxWhere_congr _ _ states hconv]
    exact hi
  -- characterization facts at the spec index
  obtain ⟨⟨gs', hgs', hmin'⟩, hbefore⟩ := (firstIdxWhere_eq_some_iff _ _ _).mp hspec
  have hgseq : gs' = gs := by
    rw [hgi] at hgs'
    exact (Option.some.inj hgs').symm
  rw [hgseq] at hmin'
  have hgsmem : gs ∈ stage_states Z states :=
    (List.mem_iff_getElem?).mpr ⟨k, hgsk⟩
  have hgsZ : gs.Z = Z := by
    have hmem := List.of_mem_filter hgsmem
    exact beq_iff_eq.mp hmem
  -- gs_pos lands on the same index
  have hequals : firstIdxWhere (fun s => s.equals gs) states = some i := by
    refine (firstIdxWhere_eq_some_iff _ _ _).mpr ⟨⟨gs, hgi, State.equals_refl gs⟩, ?_⟩
    intro j hj b hb
    by_cases hbeq : b.equals gs = true
    · obtain ⟨_, hbZ, hbE, _⟩ := (State.equals_spec b gs).mp hbeq
      have hmin2 := hmin'
      rw [is_stage_min] at hmin2
      simp only [Bool.and_eq_true] at hmin2
      obtain ⟨_, hall⟩ := hmin2
      have hbmin : is_stage_min Z states b = true := by
        rw [is_stage_min]
        simp only [Bool.and_eq_true]
        refine ⟨beq_iff_eq.mpr (by rw [hbZ, hgsZ]), ?_⟩
        refine List.all_eq_true.mpr (fun t ht => ?_)
        rw [hbE]
        exact List.all_eq_true.mp hall t ht
      have hfalse := hbefore j hj b hb
      rw [hbmin] at hfalse
      cases hfalse
    · exact Bool.eq_false_iff.mpr hbeq
  have hpos : gs_pos Z states = i := by
    rw [gs_pos, hground]
    show (firstIdxWhere (fun s => s.equals gs) states).getD 0 = i
    rw [hequals]
    rfl
  exact ⟨i, gs, hspec, hgi, hpos, henergy, hground, hmin'⟩

/-- **C6.** When `init_ionization_energies` completes (every stage
present, every state's stage in range — otherwise the Python raises), then
for every ionization stage `Z` present: exactly the state at
`spec_first_min_idx Z` — the minimum-energy stage-`Z` state, ties broken
by first occurrence in list order — is marked `ground` among stage-`Z`
states; every state of a non-top stage gets `iz_energy` equal to the next
stage's ground-state (minimum) energy minus its own energy, 0 for the top
stage; and every state gets `energy_from_gs` equal to its energy minus
its own stage's ground-state energy. -/
theorem c6_init_ionization_energies (num_Z : Nat) (states states' : List State)
    (h : init_ionization_energies num_Z states = some states') :
    (∀ Z, Z < num_Z →
      ∃ i, spec_first_min_idx Z states = some i ∧
        (∀ (j : Nat) (s' : State), states'[j]? = some s' → s'.Z = Z →
          (s'.ground = true ↔ j = i))) ∧
    (∀ (j : Nat) (s s' : State), states[j]? = some s → states'[j]? = some s' →
      s'.Z = s.Z ∧ s'.energy = s.energy ∧
      (s.Z + 1 < num_Z →
        ∃ E, stage_min_energy (s.Z + 1) states = some E ∧ s'.iz_energy = E - s.energy) ∧
      (s.Z + 1 = num_Z → s'.iz_energy = 0) ∧
      (∃ E0, stage_min_energy s.Z states = some E0 ∧
        s'.energy_from_gs = s.energy - E0)) := by
  rw [init_ionization_energies] at h
  by_cases hg : ((List.range num_Z).all (fun Z => !(stage_states Z states).isEmpty)
      && states.all (fun s => decide (s.Z < num_Z))) = true
  · rw [if_pos hg] at h
    have hstates' : states' = enumMap (update_state_energies num_Z states) states :=
      (Option.some.inj h).symm
    simp only [Bool.and_eq_true] at hg
    obtain ⟨hg1, hg2⟩ := hg
    have hstage : ∀ Z, Z < num_Z → stage_states Z states ≠ [] := by
      intro Z hZ hnil
      have hZall := List.all_eq_true.mp hg1 Z (List.mem_range.mpr hZ)
      rw [hnil] at hZall
      simp at hZall
    have hZlt : ∀ s ∈ states, s.Z < num_Z := fun s hs =>
      of_decide_eq_true (List.all_eq_true.mp hg2 s hs)
    have hget : ∀ j, states'[j]?
        = (states[j]?).map (fun s => update_state_energies num_Z states j s) := by
      intro j
      rw [hstates', enumMap, enumMapFrom_getElem?]
      have hzero : 0 + j = j := by omega
      rw [hzero]
    have hminE : ∀ Z, Z < num_Z →
        stage_min_energy Z states = some (gs_energy Z states) := by
      intro Z hZ
      obtain ⟨i, gs, hspec, hgi, hpos, hE, hground, hmin⟩ :=
        stage_ground_spec Z states (hstage Z hZ)
      rw [hE]
      rw [is_stage_min] at hmin
      simp only [Bool.and_eq_true] at hmin
      obtain ⟨hZeq, hall⟩ := hmin
      refine listMin_eq_some_of _ _ ?_ ?_
      · refine List.mem_map_of_mem (fun s : State => s.energy) ?_
        exact List.mem_filter.mpr ⟨(List.mem_iff_getElem?).mpr ⟨i, hgi⟩, hZeq⟩
      · intro y hy
        obtain ⟨t, ht, hty⟩ := List.mem_map.mp hy
        rw [← hty]
        exact of_decide_eq_true (List.all_eq_true.mp hall t ht)
    refine ⟨?_, ?_⟩
    · intro Z hZ
      obtain ⟨i, gs, hspec, hgi, hpos, hE, hground, hmin⟩ :=
        stage_ground_spec Z states (hstage Z hZ)
      refine ⟨i, hspec, ?_⟩
      intro j s' hj' hjZ
      rw [hget j] at hj'
      cases hjs : states[j]? with
      | none => rw [hjs] at hj'; cases hj'
      | some s =>
          rw [hjs] at hj'
          have hs' : s' = update_state_energies num_Z states j s :=
            (Option.some.inj hj').symm
          have hsground : s'.ground = (gs_pos_list num_Z states).contains j := by
            rw [hs']
            rfl
          have hsZ : s'.Z = s.Z := by
            rw [hs']
            rfl

          constructor
          · intro hgr
            rw [hsground] at hgr
            have hjmem : j ∈ gs_pos_list num_Z states := (contains_nat_iff _ _).mp hgr
            obtain ⟨Z', hZ'mem, hZ'eq⟩ := List.mem_map.mp hjmem
            have hZ'lt : Z' < num_Z := List.mem_range.mp hZ'mem
            obtain ⟨i', gs2, hspec2, hgi2, hpos2, hE2, hground2, hmin2⟩ :=
              stage_ground_spec Z' states (hstage Z' hZ'lt)
            have hji' : j = i' := by rw [← hZ'eq, hpos2]
            have hsgs2 : s = gs2 := by
              rw [hji'] at hjs
              rw [hjs] at hgi2
              exact Option.some.inj hgi2
            have hgs2Z : gs2.Z = Z' := by
              rw [is_stage_min] at hmin2
              simp only [Bool.and_eq_true] at hmin2
              exact beq_iff_eq.mp hmin2.1
            have h1 : s.Z = Z := by rw [← hsZ]; exact hjZ
            have hZZ' : Z' = Z := by
              rw [← hgs2Z, ← hsgs2]
              exact h1
            rw [hji', ← hpos2, hZZ']
            exact hpos.symm ▸ rfl
          · intro hji
            rw [hsground, hji]
            refine (contains_nat_iff _ _).mpr ?_
            rw [← hpos]
            exact List.mem_map_of_mem (fun Z => gs_pos Z states) (List.mem_range.mpr hZ)
    · intro j s s' hjs hj'
      rw [hget j, hjs] at hj'
      have hs' : s' = update_state_energies num_Z states j s :=
        (Option.some.inj hj').symm
      have hsmem : s ∈ states := (List.mem_iff_getElem?).mpr ⟨j, hjs⟩
      have hsZlt : s.Z < num_Z := hZlt s hsmem
      refine ⟨by rw [hs']; rfl, by rw [hs']; rfl, ?_, ?_, ?_⟩
      · intro hlt
        have hcond : s.Z < num_Z - 1 := by omega
        refine ⟨gs_energy (s.Z + 1) states, hminE (s.Z + 1) hlt, ?_⟩
        rw [hs']
        show (if s.Z < num_Z - 1 then gs_energy (s.Z + 1) states - s.energy else 0)
          = gs_energy (s.Z + 1) states - s.energy
        rw [if_pos hcond]
      · intro heq
        have hcond : ¬ s.Z < num_Z - 1 := by omega
        rw [hs']
        show (if s.Z < num_Z - 1 then gs_energy (s.Z + 1) states - s.energy else 0) = 0
        rw [if_neg hcond]
      · refine ⟨gs_energy s.Z states, hminE s.Z hsZlt, ?_⟩
        rw [hs']
        rfl
  · rw [if_neg hg] at h
    cases h

/-- Witness for C6: a two-stage model (`num_Z = 2`) with two stage-0
states (energies 0 and −1, so the second is ground) and one stage-1
state (energy 5). -/
theorem c6_init_ionization_energies_witness :
    (init_ionization_energies 2
        [{ id := 0, Z := 0, energy := 0, stat_weight := 1 },
         { id := 1, Z := 0, energy := -1, stat_weight := 1 },
         { id := 2, Z := 1, energy := 5, stat_weight := 1 }]
      = some
        [{ id := 0, Z := 0, energy := 0, stat_weight := 1, ground := false,
           iz_energy := 5, energy_from_gs := 1 },
         { id := 1, Z := 0, energy := -1, stat_weight := 1, ground := true,
           iz_energy := 6, energy_from_gs := 0 },
         { id := 2, Z := 1, energy := 5, stat_weight := 1, ground := true,
           iz_energy := 0, energy_from_gs := 0 }]) ∧
    ((∀ Z, Z < 2 →
      ∃ i, spec_first_min_idx Z
          [{ id := 0, Z := 0, energy := 0, stat_weight := 1 },
           { id := 1, Z := 0, energy := -1, stat_weight := 1 },
           { id := 2, Z := 1, energy := 5, stat_weight := 1 }] = some i ∧
        (∀ (j : Nat) (s' : State),
          ([{ id := 0, Z := 0, energy := 0, stat_weight := 1, ground := false,
              iz_energy := 5, energy_from_gs := 1 },
            { id := 1, Z := 0, energy := -1, stat_weight := 1, ground := true,
              iz_energy := 6, energy_from_gs := 0 },
            { id := 2, Z := 1, energy := 5, stat_weight := 1, ground := true,
              iz_energy := 0, energy_from_gs := 0 }] : List State)[j]? = some s' →
          s'.Z = Z → (s'.ground = true ↔ j = i))) ∧
    (∀ (j : Nat) (s s' : State),
      ([{ id := 0, Z := 0, energy := 0, stat_weight := 1 },
        { id := 1, Z := 0, energy := -1, stat_weight := 1 },
        { id := 2, Z := 1, energy := 5, stat_weight := 1 }] : List State)[j]? = some s →
      ([{ id := 0, Z := 0, energy := 0, stat_weight := 1, ground := false,
          iz_energy := 5, energy_from_gs := 1 },
        { id := 1, Z := 0, energy := -1, stat_weight := 1, ground := true,
          iz_energy := 6, energy_from_gs := 0 },
        { id := 2, Z := 1, energy := 5, stat_weight := 1, ground := true,
          iz_energy := 0, energy_from_gs := 0 }] : List State)[j]? = some s' →
      s'.Z = s.Z ∧ s'.energy = s.energy ∧
      (s.Z + 1 < 2 →
        ∃ E, stage_min_energy (s.Z + 1)
            [{ id := 0, Z := 0, energy := 0, stat_weight := 1 },
             { id := 1, Z := 0, energy := -1, stat_weight := 1 },
             { id := 2, Z := 1, energy := 5, stat_weight := 1 }] = some E ∧
          s'.iz_energy = E - s.energy) ∧
      (s.Z + 1 = 2 → s'.iz_energy = 0) ∧
      (∃ E0, stage_min_energy s.Z
          [{ id := 0, Z := 0, energy := 0, stat_weight := 1 },
           { id := 1, Z := 0, energy := -1, stat_weight := 1 },
           { id := 2, Z := 1, energy := 5, stat_weight := 1 }] = some E0 ∧
        s'.energy_from_gs = s.energy - E0))) :=
  ⟨by norm_num +decide [init_ionization_energies, enumMap, enumMapFrom,
     update_state_energies, gs_pos_list, gs_pos, gs_energy, stage_ground,
     np_argmin, firstIdxWhere, stage_states, State.equals, List.filter_cons],
   c6_init_ionization_energies 2
     [{ id := 0, Z := 0, energy := 0, stat_weight := 1 },
      { id := 1, Z := 0, energy := -1, stat_weight := 1 },
      { id := 2, Z := 1, energy := 5, stat_weight := 1 }]
     [{ id := 0, Z := 0, energy := 0, stat_weight := 1, ground := false,
        iz_energy := 5, energy_from_gs := 1 },
      { id := 1, Z := 0, energy := -1, stat_weight := 1, ground := true,
        iz_energy := 6, energy_from_gs := 0 },
      { id := 2, Z := 1, energy := 5, stat_weight := 1, ground := true,
        iz_energy := 0, energy_from_gs := 0 }]
     (by norm_num +decide [init_ionization_energies, enumMap, enumMapFrom,
       update_state_energies, gs_pos_list, gs_pos, gs_energy, stage_ground,
       np_argmin, firstIdxWhere, stage_states, State.equals, List.filter_cons])⟩
